import Mathlib

/-!
Shallow embedding of `src/datasets/batch_data.py`: the batching and
label-balancing generator `batch_data`, the probabilistic split selector
`pick_splits`, the store writer `write_batch_to_h5`, the dataset splitter
`split_data`, and the per-bin reader `H5Iterator`.  Machine floats are
modelled as exact rationals; numpy arrays as lists; the HDF5 file as an
association list of resizable datasets; Python exceptions as explicit
error values.
-/

namespace BatchData

/-! ## Split Selector (`pick_splits`) -/

/-- Running cumulative sums (`np.cumsum`), starting from accumulator `acc`. -/
def cumsumFrom (acc : ℚ) : List ℚ → List ℚ
  | [] => []
  | x :: xs => (acc + x) :: cumsumFrom (acc + x) xs

/-- `np.cumsum` of a list of rationals. -/
def cumsum (l : List ℚ) : List ℚ := cumsumFrom 0 l

/-- The cutoff list built by `pick_splits`: the splits with
`1 - sum(splits)` appended, then cumulatively summed. -/
def cum_cutoffs (splits : List ℚ) : List ℚ :=
  cumsum (splits ++ [1 - splits.sum])

/-- The scanning loop of `pick_splits`: first index whose cutoff strictly
exceeds the draw, `none` if the loop falls through. -/
def firstBin (draw : ℚ) : List ℚ → Option ℕ
  | [] => none
  | c :: rest => if draw < c then some 0 else (firstBin draw rest).map (· + 1)

/-- `pick_splits(splits)` with the uniform draw made explicit.  The
`assert np.sum(splits) < 1.0` failure is modelled as `none`. -/
def pick_splits (splits : List ℚ) (draw : ℚ) : Option ℕ :=
  if splits.sum < 1 then firstBin draw (cum_cutoffs splits) else none

theorem cumsumFrom_length (l : List ℚ) : ∀ acc, (cumsumFrom acc l).length = l.length := by
  induction l with
  | nil => intro acc; rfl
  | cons x xs ih => intro acc; simp [cumsumFrom, ih]

theorem sum_mem_cumsumFrom : ∀ (l : List ℚ), l ≠ [] → ∀ acc, acc + l.sum ∈ cumsumFrom acc l := by
  intro l
  induction l with
  | nil => intro h; exact absurd rfl h
  | cons x xs ih =>
    intro _ acc
    cases xs with
    | nil => simp [cumsumFrom]
    | cons y ys =>
      have h := ih (by simp) (acc + x)
      have heq : acc + (x :: y :: ys).sum = acc + x + (y :: ys).sum := by
        simp only [List.sum_cons]; ring
      rw [show cumsumFrom acc (x :: y :: ys) = (acc + x) :: cumsumFrom (acc + x) (y :: ys)
        from rfl]
      rw [heq]
      exact List.mem_cons_of_mem _ h

theorem firstBin_spec (draw : ℚ) (cutoffs : List ℚ) (hex : ∃ c ∈ cutoffs, draw < c) :
    ∃ i c, firstBin draw cutoffs = some i ∧ i < cutoffs.length ∧
      cutoffs.get? i = some c ∧ draw < c ∧
      ∀ j c', j < i → cutoffs.get? j = some c' → c' ≤ draw := by
  induction cutoffs with
  | nil => simp at hex
  | cons c rest ih =>
    by_cases hc : draw < c
    · exact ⟨0, c, by simp [firstBin, hc], by simp, by simp, hc, by intro j c' hj; omega⟩
    · have hrest : ∃ d ∈ rest, draw < d := by
        rcases hex with ⟨d, hd, hlt⟩
        rcases List.mem_cons.mp hd with h | h
        · exact absurd (h ▸ hlt) hc
        · exact ⟨d, h, hlt⟩
      rcases ih hrest with ⟨i, d, heq, hlen, hget, hlt, hmin⟩
      refine ⟨i + 1, d, ?_, by simpa using hlen, by simpa using hget, hlt, ?_⟩
      · simp [firstBin, hc, heq]
      · intro j c' hj hget'
        match j with
        | 0 => simp at hget'; subst hget'; exact le_of_not_lt hc
        | j + 1 => exact hmin j c' (by omega) (by simpa using hget')

/-! ## Batch Accumulator (`batch_data`)

Labels are Python-2 values: integers or strings, with the Python-2 cross-type
ordering (all ints sort before all strings).  The balanced-mode dict
`docs` and the HDF5 file are modelled as association lists. -/

/-- A Python-2 label value: an int or a string. -/
inductive PyLabel : Type
  | int : ℤ → PyLabel
  | str : String → PyLabel
deriving DecidableEq, Repr

/-- Python-2 comparison on label values: ints by value, strings
lexicographically, and every int below every string. -/
def PyLabel.ble : PyLabel → PyLabel → Bool
  | .int a, .int b => decide (a ≤ b)
  | .int _, .str _ => true
  | .str _, .int _ => false
  | .str a, .str b => !decide (b < a)

/-- Insert into a sorted list (helper for `sorted`). -/
def insertLbl (x : PyLabel) : List PyLabel → List PyLabel
  | [] => [x]
  | y :: ys => if PyLabel.ble x y then x :: y :: ys else y :: insertLbl x ys

/-- Python `sorted` on label values (insertion sort). -/
def sortLabels : List PyLabel → List PyLabel
  | [] => []
  | x :: xs => insertLbl x (sortLabels xs)

/-- Association-list lookup: Python `d[k]`, `none` meaning `KeyError`. -/
def assocFind {K β : Type} [DecidableEq K] (l : List (K × β)) (k : K) : Option β :=
  (l.find? fun p => decide (p.1 = k)).map (·.2)

/-- Association-list update of an existing key in place. -/
def assocSet {K β : Type} [DecidableEq K] (l : List (K × β)) (k : K) (v : β) :
    List (K × β) :=
  l.map fun p => if p.1 = k then (k, v) else p

/-- `docs[label].append(doc)` with the `KeyError` handler that creates
`docs[label] = [transformed_doc]` for a new label. -/
def assocAppend {α : Type} (docs : List (PyLabel × List α)) (lbl : PyLabel) (doc : α) :
    List (PyLabel × List α) :=
  match assocFind docs lbl with
  | some q => assocSet docs lbl (q ++ [doc])
  | none => docs ++ [(lbl, [doc])]

/-- Configuration of one `batch_data` call. -/
structure BDCfg where
  bs : ℕ                 -- batch_size
  maxr : Option ℕ        -- max_records
  balance : Bool         -- balance_labels
  nl : Option ℕ          -- nlabels
deriving DecidableEq, Repr

/-- Errors that terminate the generator abnormally.  `fuelOut` is the
modelling artifact for a non-terminating accumulation loop. -/
inductive BDErr : Type
  | assertError
  | fuelOut
  | keyError (idx : ℕ)       -- docs[cur_label_idx] with no such key
  | indexOutOfRange          -- sorted_unique_labels[cur_label_idx] out of range
deriving DecidableEq, Repr

/-- Outcome of the accumulation (while) loop of one dispatch. -/
inductive DispRes (α : Type) : Type
  | batch (accD : List α) (accL : List PyLabel)
      (docs : List (PyLabel × List α)) (dl : List (α × PyLabel))
  | halt                     -- the max_records `return`
  | err (e : BDErr)
deriving DecidableEq, Repr

/-- The `max_records` guard at the top of the accumulation loop. -/
def checkMax (maxr : Option ℕ) (nrY bs : ℕ) : Bool :=
  match maxr with
  | none => false
  | some m => decide (nrY + bs > m)

/-- `cur_label_idx += 1` followed by the wrap-around test against `nlabels`. -/
def wrapIdx (nl : Option ℕ) (i : ℕ) : ℕ :=
  if nl = some (i + 1) then 0 else i + 1

/-- The main accumulation loop of `batch_data` (the `while` at line 122):
pops records round-robin (balanced) or in arrival order (unbalanced) until
`batch_size` records are collected.  In the balanced branch the source
indexes the label-keyed dict by the integer cycle index
(`docs[cur_label_idx].pop(0)`): a missing key is an uncaught `KeyError`,
an empty list is the tolerated empty pop (skip, `finally` advances the
index), and an out-of-range `sorted_unique_labels[cur_label_idx]` is an
`IndexError` whose message is not `pop from empty list`, hence re-raised. -/
def dispatchLoop {α : Type} (cfg : BDCfg) (nrY : ℕ) (sorted : List PyLabel) :
    ℕ → List (PyLabel × List α) → List (α × PyLabel) → List α → List PyLabel → ℕ →
    DispRes α
  | 0, docs, dl, accD, accL, _ =>
    if cfg.bs ≤ accD.length then .batch accD accL docs dl else .err .fuelOut
  | fuel + 1, docs, dl, accD, accL, idx =>
    if cfg.bs ≤ accD.length then .batch accD accL docs dl
    else if checkMax cfg.maxr nrY cfg.bs then .halt
    else if cfg.balance then
      match sorted.get? idx with
      | none => .err .indexOutOfRange
      | some nextLabel =>
        match assocFind docs (PyLabel.int idx) with
        | none => .err (.keyError idx)
        | some [] =>
          dispatchLoop cfg nrY sorted fuel docs dl accD accL (wrapIdx cfg.nl idx)
        | some (d :: q) =>
          dispatchLoop cfg nrY sorted fuel (assocSet docs (PyLabel.int idx) q) dl
            (accD ++ [d]) (accL ++ [nextLabel]) (wrapIdx cfg.nl idx)
    else
      match dl with
      | [] => dispatchLoop cfg nrY sorted fuel docs dl accD accL (wrapIdx cfg.nl idx)
      | (d, l) :: rest =>
        dispatchLoop cfg nrY sorted fuel docs rest
          (accD ++ [d]) (accL ++ [l]) (wrapIdx cfg.nl idx)

/-- Mutable state of the generator between records. -/
structure BDState (α : Type) where
  docs : List (PyLabel × List α)        -- balanced: label -> queue of docs
  docsLabels : List (α × PyLabel)       -- unbalanced: queue of (doc, label)
  nrYielded : ℕ
deriving DecidableEq, Repr

/-- The per-record `try` block: normalize, transform, and append to the
appropriate queue; a `DataException` from the normalizer drops the record. -/
def appendRecord {R N α : Type} (balance : Bool)
    (normalizer : R → Except Unit N) (transformer : N → α)
    (st : BDState α) (r : R × PyLabel) : BDState α :=
  match normalizer r.1 with
  | .error _ => st
  | .ok norm =>
    let doc := transformer norm
    if balance then { st with docs := assocAppend st.docs r.2 doc }
    else { st with docsLabels := st.docsLabels ++ [(doc, r.2)] }

/-- The dispatch condition checked after each record (line 109). -/
def dispatchCond {α : Type} (cfg : BDCfg) (st : BDState α) : Bool :=
  (cfg.balance &&
    st.docs.all (fun p => decide (cfg.bs / cfg.nl.getD 0 ≤ p.2.length)) &&
    decide (st.docs.length = cfg.nl.getD 0)) ||
  (!cfg.balance && decide (cfg.bs ≤ st.docsLabels.length))

/-- One emitted batch: the data array (leading dimension = list length) and
the label array reshaped to `(batch_size, 1)` (a list of singleton rows). -/
structure Batch (α : Type) where
  docs : List α
  labels : List (List PyLabel)
deriving DecidableEq, Repr

/-- The record loop of `batch_data`: processes records one at a time,
emitting each dispatched batch paired with the generator state right after
its emission, and reporting a terminal exception if one is raised. -/
def runBD {R N α : Type} (cfg : BDCfg)
    (normalizer : R → Except Unit N) (transformer : N → α) (fuel : ℕ) :
    List (R × PyLabel) → BDState α → List (Batch α × BDState α) × Option BDErr
  | [], _ => ([], none)
  | r :: rest, st =>
    let st1 := appendRecord cfg.balance normalizer transformer st r
    if dispatchCond cfg st1 then
      let sorted := if cfg.balance then sortLabels (st1.docs.map Prod.fst) else []
      match dispatchLoop cfg st1.nrYielded sorted fuel st1.docs st1.docsLabels [] [] 0 with
      | .halt => ([], none)
      | .err e => ([], some e)
      | .batch accD accL docs2 dl2 =>
        let st2 : BDState α := ⟨docs2, dl2, st1.nrYielded + cfg.bs⟩
        let b : Batch α := ⟨accD, accL.map fun l => [l]⟩
        let rec_result := runBD cfg normalizer transformer fuel rest st2
        ((b, st2) :: rec_result.1, rec_result.2)
    else runBD cfg normalizer transformer fuel rest st1

/-- `batch_data`: the two initial assertions of balanced mode, then the
record loop from the empty state. -/
def batch_data {R N α : Type} (cfg : BDCfg)
    (normalizer : R → Except Unit N) (transformer : N → α) (fuel : ℕ)
    (records : List (R × PyLabel)) : List (Batch α × BDState α) × Option BDErr :=
  match cfg.balance, cfg.nl with
  | true, none => ([], some .assertError)
  | true, some n =>
    if cfg.bs % n = 0 then runBD cfg normalizer transformer fuel records ⟨[], [], 0⟩
    else ([], some .assertError)
  | false, _ => runBD cfg normalizer transformer fuel records ⟨[], [], 0⟩

/-! ## Bin Store Writer (`write_batch_to_h5`) and Dataset Splitter (`split_data`)

An HDF5 dataset is a list of rows; `resize(n, 0)` truncates or zero-pads the
leading dimension; slice assignment overwrites a row range.  The file is a
pair of association lists (bin index -> dataset) for the `data_<i>` and
`labels_<i>` datasets; the bin index is the `str(bin_id)` name key. -/

/-- `dataset.resize(n, 0)`: truncate or pad rows to length `n`. -/
def resizeDS {ρ : Type} (d : List ρ) (n : ℕ) (pad : ρ) : List ρ :=
  d.take n ++ List.replicate (n - d.length) pad

/-- `dataset[start:start+len(rows), ...] = rows`. -/
def writeSlice {ρ : Type} (d : List ρ) (start : ℕ) (rows : List ρ) : List ρ :=
  d.take start ++ rows ++ d.drop (start + rows.length)

/-- The persisted split store: the `data_<i>` and `labels_<i>` datasets. -/
structure H5Store (ρ κ : Type) where
  data : List (ℕ × List ρ)
  labels : List (ℕ × List κ)
deriving DecidableEq, Repr

/-- Fatal exceptions of the splitting pipeline. -/
inductive SplitErr : Type
  | assertError          -- new_data.shape[0] != new_labels.shape[0]
  | pickNone             -- pick_splits returned None (assert failed inside)
  | sizesIndex           -- data_sizes[bin_id] out of range
  | missingDataset (bin : ℕ)  -- h5_file["data_<bin>"] KeyError
  | typeErr              -- iterating over a None batch stream
  | drawsExhausted       -- modelling artifact: random stream ran dry
deriving DecidableEq, Repr

/-- `write_batch_to_h5` with the uniform draw of its `pick_splits` call made
explicit: asserts equal leading dimensions, copies the size vector, picks a
bin, resizes that bin's two datasets to `old_size + batch_len`, writes the
batch into `[old_size : old_size+batch_len]`, and returns the updated copy
of the size vector. -/
def write_batch_to_h5 {ρ κ : Type} (splits : List ℚ) (draw : ℚ)
    (st : H5Store ρ κ) (data_sizes : List ℕ)
    (new_data : List ρ) (new_labels : List κ) (padD : ρ) (padL : κ) :
    Except SplitErr (H5Store ρ κ × List ℕ) :=
  if new_data.length = new_labels.length then
    match pick_splits splits draw with
    | none => .error .pickNone
    | some bin_id =>
      match data_sizes.get? bin_id with
      | none => .error .sizesIndex
      | some start_i =>
        let end_i := start_i + new_data.length
        match assocFind st.data bin_id, assocFind st.labels bin_id with
        | some dset, some lset =>
          let dset2 := writeSlice (resizeDS dset end_i padD) start_i new_data
          let lset2 := writeSlice (resizeDS lset end_i padL) start_i new_labels
          .ok (⟨assocSet st.data bin_id dset2, assocSet st.labels bin_id lset2⟩,
               data_sizes.set bin_id end_i)
        | _, _ => .error (.missingDataset bin_id)
  else .error .assertError

/-- Dataset creation on the first batch: for every bin, `data_<i>` and
`labels_<i>` are created zero-filled with the first batch's shape. -/
def createBins {ρ κ : Type} (nb d0len l0len : ℕ) (padD : ρ) (padL : κ) : H5Store ρ κ :=
  ⟨(List.range nb).map fun i => (i, List.replicate d0len padD),
   (List.range nb).map fun i => (i, List.replicate l0len padL)⟩

/-- The write loop of `split_data`: datasets created from the first batch,
then every batch (first included) written via `write_batch_to_h5`, one
uniform draw consumed per batch. -/
def writeLoop {ρ κ : Type} (nb : ℕ) (splits : List ℚ) (padD : ρ) (padL : κ) :
    List ℚ → List (List ρ × List κ) → H5Store ρ κ → List ℕ → Bool →
    Except SplitErr (H5Store ρ κ × List ℕ)
  | _, [], st, sizes, _ => .ok (st, sizes)
  | draws, (nd, nl) :: rest, st, sizes, initialized =>
    let st1 := if initialized then st else createBins nb nd.length nl.length padD padL
    match draws with
    | [] => .error .drawsExhausted
    | draw :: draws2 =>
      match write_batch_to_h5 splits draw st1 sizes nd nl padD padL with
      | .error e => .error e
      | .ok (st2, sizes2) => writeLoop nb splits padD padL draws2 rest st2 sizes2 true

/-- `split_data` up to the returned bin size vector: `existing` is the
readable store at `h5_path` if any, `batches` the batch stream (or `none`),
`draws` the stream of uniform draws.  On the write path the store is
rebuilt from the batches; on the recovery path the existing store is
returned untouched and each bin size is read off the dataset's leading
dimension, a missing dataset (KeyError, passed) counting as 0. -/
def split_data {ρ κ : Type} (batches : Option (List (List ρ × List κ)))
    (existing : Option (H5Store ρ κ)) (splits : List ℚ) (draws : List ℚ)
    (overwrite_previous : Bool) (padD : ρ) (padL : κ) :
    Except SplitErr (H5Store ρ κ × List ℕ) :=
  let nb := splits.length + 1
  if overwrite_previous || existing.isNone then
    match batches with
    | none => .error .typeErr
    | some bl => writeLoop nb splits padD padL draws bl ⟨[], []⟩ (List.replicate nb 0) false
  else
    match existing with
    | none => .error .typeErr
    | some st =>
      .ok (st, (List.range nb).map fun i =>
        match assocFind st.data i with
        | some d => d.length
        | none => 0)

/-! ## Random-Access Bin Reader (`H5Iterator`) -/

/-- Singleton un-wrapping of one stored row (`if next_data.shape == (1,)`). -/
def unwrapRow {β : Type} : List β → List β ⊕ β
  | [x] => Sum.inr x
  | r => Sum.inl r

/-- One iteration pass of `H5Iterator` over the given index order: yields
one (data, label) pair per index, rows unwrapped when singletons.  A
sequential pass uses `indices = range(data.shape[0])`; a shuffled pass a
permutation of it. -/
def h5IterPass {β γ : Type} (data : List (List β)) (labels : List (List γ))
    (indices : List ℕ) : List ((List β ⊕ β) × (List γ ⊕ γ)) :=
  indices.map fun i => (unwrapRow (data.getD i []), unwrapRow (labels.getD i []))

/-! ## Claim theorems -/

/-- C2: for every splits list with entries in [0,1) summing to strictly
less than 1 and every draw in [0,1), `pick_splits` returns the index of the
first cumulative cutoff (splits with `1 - sum` appended, cumulatively
summed) that strictly exceeds the draw, and that index never lies outside
`[0, len(splits)]`. -/
theorem C2_pick_splits_spec (splits : List ℚ) (draw : ℚ)
    (hmem : ∀ s ∈ splits, 0 ≤ s ∧ s < 1) (hsum : splits.sum < 1)
    (hd0 : 0 ≤ draw) (hd1 : draw < 1) :
    ∃ i, pick_splits splits draw = some i ∧ i ≤ splits.length ∧
      ∃ c, (cum_cutoffs splits).get? i = some c ∧ draw < c ∧
        ∀ j c', j < i → (cum_cutoffs splits).get? j = some c' → c' ≤ draw := by
  have hone : (1 : ℚ) ∈ cum_cutoffs splits := by
    have h := sum_mem_cumsumFrom (splits ++ [1 - splits.sum]) (by simp) 0
    have heq : (0 : ℚ) + (splits ++ [1 - splits.sum]).sum = 1 := by
      simp [List.sum_append]
    rw [heq] at h
    exact h
  rcases firstBin_spec draw (cum_cutoffs splits) ⟨1, hone, hd1⟩ with
    ⟨i, c, heq, hlen, hget, hlt, hmin⟩
  have hlenc : (cum_cutoffs splits).length = splits.length + 1 := by
    simp [cum_cutoffs, cumsum, cumsumFrom_length]
  refine ⟨i, ?_, by omega, c, hget, hlt, hmin⟩
  simp [pick_splits, hsum, heq]

/-- Witness for C2 at `splits = [1/2]`, `draw = 1/4`. -/
theorem C2_pick_splits_spec_witness :
    ∃ i, pick_splits [(1 : ℚ)/2] (1/4) = some i ∧ i ≤ [(1 : ℚ)/2].length ∧
      ∃ c, (cum_cutoffs [(1 : ℚ)/2]).get? i = some c ∧ (1/4 : ℚ) < c ∧
        ∀ j c', j < i → (cum_cutoffs [(1 : ℚ)/2]).get? j = some c' → c' ≤ 1/4 :=
  C2_pick_splits_spec [(1 : ℚ)/2] (1/4)
    (by intro s hs; simp at hs; subst hs; norm_num)
    (by norm_num) (by norm_num) (by norm_num)

/-- C10: one pass of `H5Iterator` yields exactly one pair per stored index
(`data.shape[0]` records in total), and a shuffled pass yields a
permutation of the sequential pass: the multiset of records is the same,
only the order changes. -/
theorem C10_h5IterPass_perm {β γ : Type} (data : List (List β)) (labels : List (List γ))
    (perm : List ℕ) (hp : perm.Perm (List.range data.length)) :
    (h5IterPass data labels perm).length = data.length ∧
    (h5IterPass data labels perm).Perm (h5IterPass data labels (List.range data.length)) := by
  constructor
  · simp [h5IterPass, hp.length_eq]
  · exact hp.map _

/-- Witness for C10 on a two-record file with the swapped index order. -/
theorem C10_h5IterPass_perm_witness :
    (h5IterPass [[1], [2]] [[7], [8]] [1, 0]).length = ([[1], [2]] : List (List ℕ)).length ∧
    (h5IterPass [[1], [2]] [[7], [8]] [1, 0]).Perm
      (h5IterPass ([[1], [2]] : List (List ℕ)) ([[7], [8]] : List (List ℕ))
        (List.range ([[1], [2]] : List (List ℕ)).length)) :=
  C10_h5IterPass_perm [[1], [2]] [[7], [8]] [1, 0] (by decide)

/-- C1: at the very dispatch state of the claim — balanced mode,
`batch_size = 4`, `nlabels = 2`, label queues keyed by the strings A and B
holding 5 records each — the accumulation loop evaluates
`docs[cur_label_idx]` with the integer cycle index `0` as the dict key and
raises an uncaught `KeyError` instead of assembling the A,B,A,B batch. -/
theorem C1_balanced_dispatch_keyerror :
    dispatchLoop (α := ℕ) ⟨4, none, true, some 2⟩ 0
      [PyLabel.str "A", PyLabel.str "B"] 10
      [(PyLabel.str "A", [0, 1, 2, 3, 4]), (PyLabel.str "B", [10, 11, 12, 13, 14])]
      [] [] [] 0
      = .err (.keyError 0) := by decide

/-- The intended behaviour the claim describes is reached only when the
labels are exactly the integers `0 .. nlabels-1`, so that the dict lookup
by the cycle index coincides with the sorted-label lookup: then the first
batch is the round-robin interleaving and each queue keeps 3 records. -/
theorem balanced_dispatch_int_labels :
    dispatchLoop (α := ℕ) ⟨4, none, true, some 2⟩ 0
      [PyLabel.int 0, PyLabel.int 1] 10
      [(PyLabel.int 0, [0, 1, 2, 3, 4]), (PyLabel.int 1, [10, 11, 12, 13, 14])]
      [] [] [] 0
      = .batch [0, 10, 1, 11]
          [PyLabel.int 0, PyLabel.int 1, PyLabel.int 0, PyLabel.int 1]
          [(PyLabel.int 0, [2, 3, 4]), (PyLabel.int 1, [12, 13, 14])] [] := by decide

/-! ### Lemmas on the accumulation loop and the record loop -/

/-- A completed accumulation loop holds exactly `batch_size` records and as
many labels. -/
theorem dispatchLoop_batch_length {α : Type} (cfg : BDCfg) (nrY : ℕ) (sorted : List PyLabel) :
    ∀ (fuel : ℕ) (docs : List (PyLabel × List α)) (dl : List (α × PyLabel))
      (accD : List α) (accL : List PyLabel) (idx : ℕ)
      (D : List α) (L : List PyLabel) (docs2 : List (PyLabel × List α))
      (dl2 : List (α × PyLabel)),
      accD.length ≤ cfg.bs → accL.length = accD.length →
      dispatchLoop cfg nrY sorted fuel docs dl accD accL idx = .batch D L docs2 dl2 →
      D.length = cfg.bs ∧ L.length = cfg.bs := by
  intro fuel
  induction fuel with
  | zero =>
    intro docs dl accD accL idx D L docs2 dl2 hle hlen heq
    simp only [dispatchLoop] at heq
    split at heq
    · cases heq
      constructor <;> omega
    · cases heq
  | succ fuel ih =>
    intro docs dl accD accL idx D L docs2 dl2 hle hlen heq
    simp only [dispatchLoop] at heq
    split at heq
    · cases heq
      constructor <;> omega
    · next hnb =>
      split at heq
      · cases heq
      · split at heq
        · -- balanced branch
          split at heq
          · cases heq
          · split at heq
            · cases heq
            · exact ih _ _ _ _ _ _ _ _ _ (by omega) hlen heq
            · refine ih _ _ _ _ _ _ _ _ _ ?_ ?_ heq <;> simp <;> omega
        · -- unbalanced branch
          split at heq
          · exact ih _ _ _ _ _ _ _ _ _ (by omega) hlen heq
          · refine ih _ _ _ _ _ _ _ _ _ ?_ ?_ heq <;> simp <;> omega

/-- A batch can only complete if emitting it would not push the cumulative
count past `max_records`. -/
theorem dispatchLoop_batch_maxr {α : Type} (cfg : BDCfg) (m nrY : ℕ) (sorted : List PyLabel)
    (fuel : ℕ) (docs : List (PyLabel × List α)) (dl : List (α × PyLabel))
    (accD : List α) (accL : List PyLabel) (idx : ℕ)
    (D : List α) (L : List PyLabel) (docs2 : List (PyLabel × List α))
    (dl2 : List (α × PyLabel))
    (hm : cfg.maxr = some m) (hlt : accD.length < cfg.bs)
    (heq : dispatchLoop cfg nrY sorted fuel docs dl accD accL idx = .batch D L docs2 dl2) :
    nrY + cfg.bs ≤ m := by
  cases fuel with
  | zero =>
    simp only [dispatchLoop] at heq
    split at heq
    · omega
    · cases heq
  | succ fuel =>
    simp only [dispatchLoop] at heq
    split at heq
    · omega
    · split at heq
      · cases heq
      · next hC =>
        rw [hm] at hC
        simp [checkMax] at hC
        omega

/-- In unbalanced mode, a completed accumulation loop that started with the
queue holding the missing records drains the queue completely. -/
theorem dispatchLoop_unbalanced_empties {α : Type} (cfg : BDCfg) (nrY : ℕ)
    (sorted : List PyLabel) (hb : cfg.balance = false) :
    ∀ (fuel : ℕ) (docs : List (PyLabel × List α)) (dl : List (α × PyLabel))
      (accD : List α) (accL : List PyLabel) (idx : ℕ)
      (D : List α) (L : List PyLabel) (docs2 : List (PyLabel × List α))
      (dl2 : List (α × PyLabel)),
      accD.length + dl.length = cfg.bs →
      dispatchLoop cfg nrY sorted fuel docs dl accD accL idx = .batch D L docs2 dl2 →
      dl2 = [] := by
  intro fuel
  induction fuel with
  | zero =>
    intro docs dl accD accL idx D L docs2 dl2 hsum heq
    simp only [dispatchLoop] at heq
    split at heq
    · cases heq
      exact List.length_eq_zero.mp (by omega)
    · cases heq
  | succ fuel ih =>
    intro docs dl accD accL idx D L docs2 dl2 hsum heq
    simp only [dispatchLoop] at heq
    split at heq
    · cases heq
      exact List.length_eq_zero.mp (by omega)
    · next hnb =>
      split at heq
      · cases heq
      · rw [hb] at heq
        simp only [Bool.false_eq_true, if_false] at heq
        split at heq
        · exfalso
          simp at hsum
          omega
        · next d l rest =>
          refine ih _ _ _ _ _ _ _ _ _ ?_ heq
          simp at hsum ⊢
          omega

/-- `appendRecord` never touches the yielded-record counter. -/
theorem appendRecord_nrYielded {R N α : Type} (balance : Bool)
    (normalizer : R → Except Unit N) (transformer : N → α)
    (st : BDState α) (r : R × PyLabel) :
    (appendRecord balance normalizer transformer st r).nrYielded = st.nrYielded := by
  unfold appendRecord
  cases normalizer r.1 <;> simp <;> split <;> rfl

/-- In unbalanced mode `appendRecord` grows the queue by at most one. -/
theorem appendRecord_docsLabels_length {R N α : Type}
    (normalizer : R → Except Unit N) (transformer : N → α)
    (st : BDState α) (r : R × PyLabel) :
    (appendRecord false normalizer transformer st r).docsLabels.length ≤
      st.docsLabels.length + 1 := by
  unfold appendRecord
  cases normalizer r.1 <;> simp

/-- Every batch emitted by the record loop holds exactly `batch_size`
records and a `(batch_size, 1)`-shaped label array. -/
theorem runBD_batch_shapes {R N α : Type} (cfg : BDCfg)
    (normalizer : R → Except Unit N) (transformer : N → α) (fuel : ℕ) :
    ∀ (records : List (R × PyLabel)) (st : BDState α),
      ∀ p ∈ (runBD cfg normalizer transformer fuel records st).1,
        p.1.docs.length = cfg.bs ∧ p.1.labels.length = cfg.bs ∧
          ∀ row ∈ p.1.labels, row.length = 1 := by
  intro records
  induction records with
  | nil => intro st p hp; simp [runBD] at hp
  | cons r rest ih =>
    intro st p hp
    simp only [runBD] at hp
    split at hp
    · split at hp
      · simp at hp
      · simp at hp
      · next accD accL docs2 dl2 heq =>
        rcases List.mem_cons.mp hp with h | h
        · rcases dispatchLoop_batch_length cfg _ _ fuel _ _ [] [] 0 accD accL docs2 dl2
            (by simp) (by simp) heq with ⟨hD, hL⟩
          subst h
          refine ⟨hD, by simpa using hL, ?_⟩
          intro row hrow
          simp at hrow
          rcases hrow with ⟨l, _, hl⟩
          simp [← hl]
        · exact ih _ p h
    · exact ih _ p hp

/-- `batch_data`-level version of `runBD_batch_shapes`. -/
theorem batch_data_shapes {R N α : Type} (cfg : BDCfg)
    (normalizer : R → Except Unit N) (transformer : N → α) (fuel : ℕ)
    (records : List (R × PyLabel)) :
    ∀ p ∈ (batch_data cfg normalizer transformer fuel records).1,
      p.1.docs.length = cfg.bs ∧ p.1.labels.length = cfg.bs ∧
        ∀ row ∈ p.1.labels, row.length = 1 := by
  intro p hp
  unfold batch_data at hp
  split at hp
  · simp at hp
  · split at hp
    · exact runBD_batch_shapes cfg normalizer transformer fuel records _ p hp
    · simp at hp
  · exact runBD_batch_shapes cfg normalizer transformer fuel records _ p hp

/-- C3: for every input stream and valid configuration, every batch emitted
by `batch_data` has data and label arrays with leading dimension exactly
`batch_size`, the label array shaped `(batch_size, 1)`; only full batches
appear in the output, so records accumulated but never dispatched at
stream exhaustion are dropped. -/
theorem C3_batch_shapes {R N α : Type} (cfg : BDCfg)
    (normalizer : R → Except Unit N) (transformer : N → α) (fuel : ℕ)
    (records : List (R × PyLabel)) (hbs : 0 < cfg.bs) :
    ∀ p ∈ (batch_data cfg normalizer transformer fuel records).1,
      p.1.docs.length = cfg.bs ∧ p.1.labels.length = cfg.bs ∧
        ∀ row ∈ p.1.labels, row.length = 1 :=
  batch_data_shapes cfg normalizer transformer fuel records

/-- Witness for C3: the first batch emitted by an unbalanced run with
`batch_size = 2` over five records is sized 2 with `(2, 1)` labels. -/
theorem C3_batch_shapes_witness :
    ((⟨[1, 2], [[PyLabel.int 0], [PyLabel.int 1]]⟩, ⟨[], [], 2⟩) :
        Batch ℕ × BDState ℕ).1.docs.length = 2 ∧
    ((⟨[1, 2], [[PyLabel.int 0], [PyLabel.int 1]]⟩, ⟨[], [], 2⟩) :
        Batch ℕ × BDState ℕ).1.labels.length = 2 ∧
    ∀ row ∈ ((⟨[1, 2], [[PyLabel.int 0], [PyLabel.int 1]]⟩, ⟨[], [], 2⟩) :
        Batch ℕ × BDState ℕ).1.labels, row.length = 1 :=
  C3_batch_shapes ⟨2, none, false, none⟩ (fun x => Except.ok x) id 10
    [(1, PyLabel.int 0), (2, PyLabel.int 1), (3, PyLabel.int 0),
     (4, PyLabel.int 1), (5, PyLabel.int 0)] (by decide)
    (⟨[1, 2], [[PyLabel.int 0], [PyLabel.int 1]]⟩, ⟨[], [], 2⟩) (by decide)

/-- Cumulative yielded records never pass `max_records`: the count already
yielded plus everything the rest of the run emits stays under the cap. -/
theorem runBD_nrYielded_le {R N α : Type} (cfg : BDCfg)
    (normalizer : R → Except Unit N) (transformer : N → α) (fuel : ℕ)
    (m : ℕ) (hm : cfg.maxr = some m) (hbs : 0 < cfg.bs) :
    ∀ (records : List (R × PyLabel)) (st : BDState α),
      st.nrYielded + ((runBD cfg normalizer transformer fuel records st).1).length * cfg.bs ≤
        max m st.nrYielded := by
  intro records
  induction records with
  | nil => intro st; simp [runBD]
  | cons r rest ih =>
    intro st
    simp only [runBD]
    split
    · split
      · simp
      · simp
      · next accD accL docs2 dl2 heq =>
        have hle : (appendRecord cfg.balance normalizer transformer st r).nrYielded +
            cfg.bs ≤ m :=
          dispatchLoop_batch_maxr cfg m _ _ fuel _ _ [] [] 0 accD accL docs2 dl2 hm
            (by simpa using hbs) heq
        have hnr := appendRecord_nrYielded cfg.balance normalizer transformer st r
        have h2 := ih (⟨docs2, dl2,
          (appendRecord cfg.balance normalizer transformer st r).nrYielded + cfg.bs⟩ :
          BDState α)
        simp only at h2
        have hmax2 : max m ((appendRecord cfg.balance normalizer transformer st r).nrYielded
            + cfg.bs) = m := Nat.max_eq_left hle
        rw [hmax2] at h2
        simp only [List.length_cons]
        calc st.nrYielded + (((runBD cfg normalizer transformer fuel rest
              (⟨docs2, dl2, (appendRecord cfg.balance normalizer transformer st r).nrYielded
                + cfg.bs⟩ : BDState α)).1).length + 1) * cfg.bs
            = ((appendRecord cfg.balance normalizer transformer st r).nrYielded + cfg.bs) +
              ((runBD cfg normalizer transformer fuel rest
                (⟨docs2, dl2, (appendRecord cfg.balance normalizer transformer st r).nrYielded
                  + cfg.bs⟩ : BDState α)).1).length * cfg.bs := by
              rw [hnr]; ring
          _ ≤ m := h2
          _ ≤ max m st.nrYielded := Nat.le_max_left _ _
    · have h2 := ih (appendRecord cfg.balance normalizer transformer st r)
      rw [appendRecord_nrYielded] at h2
      exact h2

/-- C5: with `max_records` set, the cumulative number of records yielded by
`batch_data` never exceeds `max_records` and is always a multiple of
`batch_size`: a batch whose emission would pass the cap is never emitted,
the generator terminates instead. -/
theorem C5_max_records {R N α : Type} (cfg : BDCfg)
    (normalizer : R → Except Unit N) (transformer : N → α) (fuel : ℕ)
    (records : List (R × PyLabel)) (m : ℕ)
    (hm : cfg.maxr = some m) (hbs : 0 < cfg.bs) :
    ((batch_data cfg normalizer transformer fuel records).1.map
        fun p => p.1.docs.length).sum ≤ m ∧
    cfg.bs ∣ ((batch_data cfg normalizer transformer fuel records).1.map
        fun p => p.1.docs.length).sum := by
  have key : ∀ (l : List (Batch α × BDState α)),
      (∀ p ∈ l, p.1.docs.length = cfg.bs) →
      (l.map fun p => p.1.docs.length).sum = l.length * cfg.bs := by
    intro l h
    induction l with
    | nil => simp
    | cons x xs ih =>
      simp only [List.map_cons, List.sum_cons, List.length_cons,
        h x (by simp)]
      rw [ih fun p hp => h p (by simp [hp])]
      ring
  have hsum : ((batch_data cfg normalizer transformer fuel records).1.map
      fun p => p.1.docs.length).sum =
      (batch_data cfg normalizer transformer fuel records).1.length * cfg.bs :=
    key _ fun p hp => (batch_data_shapes cfg normalizer transformer fuel records p hp).1
  rw [hsum]
  refine ⟨?_, dvd_mul_left cfg.bs _⟩
  unfold batch_data
  split
  · simp
  · split
    · have h := runBD_nrYielded_le cfg normalizer transformer fuel m hm hbs records
        ⟨[], [], 0⟩
      simpa using h
    · simp
  · have h := runBD_nrYielded_le cfg normalizer transformer fuel m hm hbs records
      ⟨[], [], 0⟩
    simpa using h

/-- Witness for C5: cap 2 with batch size 2 over six records yields exactly
one batch of two records. -/
theorem C5_max_records_witness :
    ((batch_data (R := ℕ) (N := ℕ) (α := ℕ) ⟨2, some 2, false, none⟩
        (fun x => Except.ok x) id 10
        [(1, PyLabel.int 0), (2, PyLabel.int 1), (3, PyLabel.int 0),
         (4, PyLabel.int 1), (5, PyLabel.int 0), (6, PyLabel.int 1)]).1.map
        fun p => p.1.docs.length).sum ≤ 2 ∧
    2 ∣ ((batch_data (R := ℕ) (N := ℕ) (α := ℕ) ⟨2, some 2, false, none⟩
        (fun x => Except.ok x) id 10
        [(1, PyLabel.int 0), (2, PyLabel.int 1), (3, PyLabel.int 0),
         (4, PyLabel.int 1), (5, PyLabel.int 0), (6, PyLabel.int 1)]).1.map
        fun p => p.1.docs.length).sum :=
  C5_max_records ⟨2, some 2, false, none⟩ (fun x => Except.ok x) id 10
    [(1, PyLabel.int 0), (2, PyLabel.int 1), (3, PyLabel.int 0),
     (4, PyLabel.int 1), (5, PyLabel.int 0), (6, PyLabel.int 1)] 2 rfl (by decide)

/-- In unbalanced mode, from a state whose queue is shorter than
`batch_size`, the state recorded right after every emission has an empty
queue. -/
theorem runBD_unbalanced_queue_empty {R N α : Type} (cfg : BDCfg)
    (normalizer : R → Except Unit N) (transformer : N → α) (fuel : ℕ)
    (hb : cfg.balance = false) :
    ∀ (records : List (R × PyLabel)) (st : BDState α),
      st.docsLabels.length < cfg.bs →
      ∀ p ∈ (runBD cfg normalizer transformer fuel records st).1,
        p.2.docsLabels = [] := by
  intro records
  induction records with
  | nil => intro st hst p hp; simp [runBD] at hp
  | cons r rest ih =>
    intro st hst p hp
    simp only [runBD] at hp
    split at hp
    · next hcond =>
      split at hp
      · simp at hp
      · simp at hp
      · next accD accL docs2 dl2 heq =>
        have h1 := appendRecord_docsLabels_length normalizer transformer st r
        rw [hb] at hcond heq
        simp only [dispatchCond, hb, Bool.false_and, Bool.not_false, Bool.true_and,
          Bool.false_or, decide_eq_true_eq] at hcond
        have hq : (appendRecord false normalizer transformer st r).docsLabels.length =
            cfg.bs := by omega
        have hdl2 : dl2 = [] :=
          dispatchLoop_unbalanced_empties cfg _ _ hb fuel _ _ [] [] 0 accD accL docs2 dl2
            (by simpa using hq) heq
        rcases List.mem_cons.mp hp with h | h
        · subst h; exact hdl2
        · refine ih _ ?_ p h
          simp only [hdl2]
          simpa using (by omega : 0 < cfg.bs)
    · next hcond =>
      refine ih _ ?_ p hp
      simp only [dispatchCond, hb, Bool.false_and, Bool.not_false, Bool.true_and,
        Bool.false_or, decide_eq_true_eq] at hcond
      rw [hb]
      omega

/-- C9: in unbalanced mode `batch_data` dispatches exactly when the single
pending queue reaches `batch_size`, so the queue is empty immediately after
every emitted batch. -/
theorem C9_unbalanced_queue_empty {R N α : Type} (cfg : BDCfg)
    (normalizer : R → Except Unit N) (transformer : N → α) (fuel : ℕ)
    (records : List (R × PyLabel)) (hb : cfg.balance = false) (hbs : 0 < cfg.bs) :
    ∀ p ∈ (batch_data cfg normalizer transformer fuel records).1,
      p.2.docsLabels = [] := by
  intro p hp
  unfold batch_data at hp
  rw [hb] at hp
  exact runBD_unbalanced_queue_empty cfg normalizer transformer fuel hb records
    ⟨[], [], 0⟩ (by simpa using hbs) p hp

/-- Witness for C9: in the five-record unbalanced run with batch size 2,
the state paired with the first emitted batch has an empty queue. -/
theorem C9_unbalanced_queue_empty_witness :
    ((⟨[1, 2], [[PyLabel.int 0], [PyLabel.int 1]]⟩, ⟨[], [], 2⟩) :
        Batch ℕ × BDState ℕ).2.docsLabels = ([] : List (ℕ × PyLabel)) :=
  C9_unbalanced_queue_empty ⟨2, none, false, none⟩ (fun x => Except.ok x) id 10
    [(1, PyLabel.int 0), (2, PyLabel.int 1), (3, PyLabel.int 0),
     (4, PyLabel.int 1), (5, PyLabel.int 0)] rfl (by decide)
    (⟨[1, 2], [[PyLabel.int 0], [PyLabel.int 1]]⟩, ⟨[], [], 2⟩) (by decide)

/-- C6: during round-robin dispatch, a pop from an empty label queue is
tolerated — the iteration is skipped and the loop continues with the next
label in the cycle — while any other pop failure is fatal: a missing dict
key (`KeyError`) and an out-of-range sorted-label index (an `IndexError`
whose message is not `pop from empty list`) both abort the dispatch and
propagate to the caller. -/
theorem C6_pop_error_handling {α : Type} (cfg : BDCfg) (nrY : ℕ)
    (sorted : List PyLabel) (fuel : ℕ) (docs : List (PyLabel × List α))
    (dl : List (α × PyLabel)) (accD : List α) (accL : List PyLabel)
    (idx : ℕ) (lbl : PyLabel)
    (hbal : cfg.balance = true) (hlt : accD.length < cfg.bs)
    (hmax : checkMax cfg.maxr nrY cfg.bs = false) :
    (sorted.get? idx = some lbl → assocFind docs (PyLabel.int idx) = some [] →
      dispatchLoop cfg nrY sorted (fuel + 1) docs dl accD accL idx =
        dispatchLoop cfg nrY sorted fuel docs dl accD accL (wrapIdx cfg.nl idx)) ∧
    (sorted.get? idx = some lbl → assocFind docs (PyLabel.int idx) = none →
      dispatchLoop cfg nrY sorted (fuel + 1) docs dl accD accL idx =
        .err (.keyError idx)) ∧
    (sorted.get? idx = none →
      dispatchLoop cfg nrY sorted (fuel + 1) docs dl accD accL idx =
        .err .indexOutOfRange) := by
  have hnb : ¬cfg.bs ≤ accD.length := by omega
  refine ⟨?_, ?_, ?_⟩
  · intro h1 h2
    rw [List.get?_eq_getElem?] at h1
    simp [dispatchLoop, hnb, hmax, hbal, h1, h2]
  · intro h1 h2
    rw [List.get?_eq_getElem?] at h1
    simp [dispatchLoop, hnb, hmax, hbal, h1, h2]
  · intro h1
    rw [List.get?_eq_getElem?] at h1
    simp [dispatchLoop, hnb, hmax, hbal, h1]

/-- Witness for C6 at a concrete dispatch state: label 0's queue is empty
(skip and continue), and a lookup of a key absent from the dict is fatal. -/
theorem C6_pop_error_handling_witness :
    (([PyLabel.int 0, PyLabel.int 1] : List PyLabel).get? 0 = some (PyLabel.int 0) →
      assocFind [(PyLabel.int 0, ([] : List ℕ)), (PyLabel.int 1, [5])] (PyLabel.int 0) =
        some [] →
      dispatchLoop (⟨4, none, true, some 2⟩ : BDCfg) 0 [PyLabel.int 0, PyLabel.int 1]
          (3 + 1) [(PyLabel.int 0, ([] : List ℕ)), (PyLabel.int 1, [5])] [] [] [] 0 =
        dispatchLoop ⟨4, none, true, some 2⟩ 0 [PyLabel.int 0, PyLabel.int 1]
          3 [(PyLabel.int 0, ([] : List ℕ)), (PyLabel.int 1, [5])] [] [] []
          (wrapIdx (some 2) 0)) ∧
    (([PyLabel.int 0, PyLabel.int 1] : List PyLabel).get? 0 = some (PyLabel.int 0) →
      assocFind [(PyLabel.int 0, ([] : List ℕ)), (PyLabel.int 1, [5])] (PyLabel.int 0) =
        none →
      dispatchLoop (⟨4, none, true, some 2⟩ : BDCfg) 0 [PyLabel.int 0, PyLabel.int 1]
          (3 + 1) [(PyLabel.int 0, ([] : List ℕ)), (PyLabel.int 1, [5])] [] [] [] 0 =
        .err (.keyError 0)) ∧
    (([PyLabel.int 0, PyLabel.int 1] : List PyLabel).get? 0 = none →
      dispatchLoop (⟨4, none, true, some 2⟩ : BDCfg) 0 [PyLabel.int 0, PyLabel.int 1]
          (3 + 1) [(PyLabel.int 0, ([] : List ℕ)), (PyLabel.int 1, [5])] [] [] [] 0 =
        .err .indexOutOfRange) :=
  C6_pop_error_handling ⟨4, none, true, some 2⟩ 0 [PyLabel.int 0, PyLabel.int 1] 3
    [(PyLabel.int 0, ([] : List ℕ)), (PyLabel.int 1, [5])] [] [] [] 0 (PyLabel.int 0)
    rfl (by decide) rfl

/-- C7: a record the normalizer rejects with the data exception is dropped:
it is appended to no queue, and — whenever the generator is not already
sitting on a satisfied dispatch condition, as is the case at every
reachable inter-record state — processing of the remaining records
continues exactly as if the record had not been present. -/
theorem C7_rejected_record_dropped {R N α : Type} (cfg : BDCfg)
    (normalizer : R → Except Unit N) (transformer : N → α) (fuel : ℕ)
    (raw : R) (lbl : PyLabel) (rest : List (R × PyLabel)) (st : BDState α)
    (hrej : normalizer raw = .error ()) :
    appendRecord cfg.balance normalizer transformer st (raw, lbl) = st ∧
    (dispatchCond cfg st = false →
      runBD cfg normalizer transformer fuel ((raw, lbl) :: rest) st =
        runBD cfg normalizer transformer fuel rest st) := by
  have happ : appendRecord cfg.balance normalizer transformer st (raw, lbl) = st := by
    simp [appendRecord, hrej]
  refine ⟨happ, fun hcond => ?_⟩
  simp only [runBD, happ, hcond]
  simp

/-- Witness for C7: a normalizer that rejects `false`, applied in a state
holding one queued record. -/
theorem C7_rejected_record_dropped_witness :
    appendRecord (α := Bool) false
        (fun b : Bool => if b then Except.ok b else Except.error ()) id
        ⟨[], [(true, PyLabel.int 1)], 0⟩ (false, PyLabel.int 0) =
      ⟨[], [(true, PyLabel.int 1)], 0⟩ ∧
    (dispatchCond (⟨2, none, false, none⟩ : BDCfg)
        (⟨[], [(true, PyLabel.int 1)], 0⟩ : BDState Bool) = false →
      runBD (⟨2, none, false, none⟩ : BDCfg)
          (fun b : Bool => if b then Except.ok b else Except.error ()) id 10
          [(false, PyLabel.int 0), (true, PyLabel.int 0)]
          ⟨[], [(true, PyLabel.int 1)], 0⟩ =
        runBD ⟨2, none, false, none⟩
          (fun b : Bool => if b then Except.ok b else Except.error ()) id 10
          [(true, PyLabel.int 0)] ⟨[], [(true, PyLabel.int 1)], 0⟩) :=
  C7_rejected_record_dropped ⟨2, none, false, none⟩
    (fun b : Bool => if b then Except.ok b else Except.error ()) id 10
    false (PyLabel.int 0) [(true, PyLabel.int 0)]
    ⟨[], [(true, PyLabel.int 1)], 0⟩ rfl

/-! ### Lemmas on the store model -/

theorem assocFind_cons {K β : Type} [DecidableEq K] (p : K × β) (l : List (K × β)) (k : K) :
    assocFind (p :: l) k = if p.1 = k then some p.2 else assocFind l k := by
  by_cases h : p.1 = k
  · rw [assocFind, List.find?_cons_of_pos _ (by simp [h]), if_pos h]
    rfl
  · rw [assocFind, List.find?_cons_of_neg _ (by simp [h]), if_neg h]
    rfl

theorem assocSet_cons {K β : Type} [DecidableEq K] (p : K × β) (l : List (K × β))
    (k : K) (v : β) :
    assocSet (p :: l) k v = (if p.1 = k then (k, v) else p) :: assocSet l k v := rfl

theorem assocFind_assocSet_self {K β : Type} [DecidableEq K] :
    ∀ (l : List (K × β)) (k : K) (v : β),
      (assocFind l k).isSome → assocFind (assocSet l k v) k = some v := by
  intro l k v h
  induction l with
  | nil => simp [assocFind] at h
  | cons p rest ih =>
    rw [assocFind_cons] at h
    by_cases hk : p.1 = k
    · rw [assocSet_cons, if_pos hk, assocFind_cons]
      simp
    · rw [assocSet_cons, if_neg hk, assocFind_cons, if_neg hk]
      rw [if_neg hk] at h
      exact ih h

theorem assocFind_assocSet_ne {K β : Type} [DecidableEq K] :
    ∀ (l : List (K × β)) (k j : K) (v : β), j ≠ k →
      assocFind (assocSet l k v) j = assocFind l j := by
  intro l k j v hne
  induction l with
  | nil => rfl
  | cons p rest ih =>
    by_cases hk : p.1 = k
    · rw [assocSet_cons, if_pos hk, assocFind_cons, assocFind_cons]
      have h1 : ¬(k = j) := fun h => hne h.symm
      rw [if_neg h1, if_neg (by rw [hk]; exact h1)]
      exact ih
    · rw [assocSet_cons, if_neg hk, assocFind_cons, assocFind_cons]
      by_cases hpj : p.1 = j
      · rw [if_pos hpj, if_pos hpj]
      · rw [if_neg hpj, if_neg hpj]
        exact ih

/-- The resized dataset has exactly the requested leading dimension. -/
theorem resizeDS_length {ρ : Type} (d : List ρ) (n : ℕ) (pad : ρ) :
    (resizeDS d n pad).length = n := by
  unfold resizeDS
  rw [List.length_append, List.length_take, List.length_replicate]
  omega

/-- Growing a dataset whose current leading dimension equals the tracked
size and then writing the new rows into the grown slice appends exactly
those rows. -/
theorem writeSlice_resize_append {ρ : Type} (dset rows : List ρ) (pad : ρ) :
    writeSlice (resizeDS dset (dset.length + rows.length) pad) dset.length rows =
      dset ++ rows := by
  have h1 : resizeDS dset (dset.length + rows.length) pad =
      dset ++ List.replicate rows.length pad := by
    simp [resizeDS, List.take_of_length_le (by omega : dset.length ≤ dset.length + rows.length)]
  rw [h1]
  unfold writeSlice
  rw [List.take_left]
  have h2 : (dset ++ List.replicate rows.length pad).drop (dset.length + rows.length) = [] := by
    apply List.drop_eq_nil_of_le
    simp
  rw [h2, List.append_nil]

/-- The written slice has leading dimension `start + rows.length` whatever
the dataset held before. -/
theorem writeSlice_resize_length {ρ : Type} (d rows : List ρ) (start : ℕ) (pad : ρ) :
    (writeSlice (resizeDS d (start + rows.length) pad) start rows).length =
      start + rows.length := by
  unfold writeSlice
  rw [List.length_append, List.length_append, List.length_take, List.length_drop,
    resizeDS_length]
  omega

/-- C4: `write_batch_to_h5`, on a store whose chosen bin's datasets have
leading dimension equal to the tracked size, grows those two datasets from
`old_size` to `old_size + batch_len`, writes the batch into the slice
`[old_size : old_size + batch_len]` (leaving the prefix untouched:
the new dataset is the old rows followed by the new rows), and returns a
size vector updated at the chosen bin only; the caller's vector itself is
not mutated (the code copies it, here reflected by the purely functional
`List.set`). -/
theorem C4_write_batch_spec {ρ κ : Type} (splits : List ℚ) (draw : ℚ)
    (st : H5Store ρ κ) (data_sizes : List ℕ) (new_data : List ρ)
    (new_labels : List κ) (padD : ρ) (padL : κ) (bin start : ℕ)
    (dset : List ρ) (lset : List κ)
    (hlen : new_data.length = new_labels.length)
    (hpick : pick_splits splits draw = some bin)
    (hsz : data_sizes.get? bin = some start)
    (hd : assocFind st.data bin = some dset)
    (hl : assocFind st.labels bin = some lset)
    (hdlen : dset.length = start) (hllen : lset.length = start) :
    write_batch_to_h5 splits draw st data_sizes new_data new_labels padD padL =
      .ok (⟨assocSet st.data bin (dset ++ new_data),
            assocSet st.labels bin (lset ++ new_labels)⟩,
           data_sizes.set bin (start + new_data.length)) ∧
    (data_sizes.set bin (start + new_data.length)).get? bin =
      some (start + new_data.length) ∧
    (∀ j, j ≠ bin → (data_sizes.set bin (start + new_data.length)).get? j =
      data_sizes.get? j) ∧
    assocFind (assocSet st.data bin (dset ++ new_data)) bin = some (dset ++ new_data) ∧
    assocFind (assocSet st.labels bin (lset ++ new_labels)) bin =
      some (lset ++ new_labels) ∧
    (dset ++ new_data).length = start + new_data.length ∧
    (dset ++ new_data).drop start = new_data := by
  have hbin : bin < data_sizes.length := by
    by_contra hge
    rw [List.get?_eq_none.mpr (by omega)] at hsz
    cases hsz
  refine ⟨?_, ?_, ?_, ?_, ?_, by simp [hdlen], by simp [← hdlen]⟩
  · unfold write_batch_to_h5
    rw [if_pos hlen]
    have hwd : writeSlice (resizeDS dset (start + new_data.length) padD) start new_data =
        dset ++ new_data := by
      rw [← hdlen]
      exact writeSlice_resize_append dset new_data padD
    have hwl : writeSlice (resizeDS lset (start + new_data.length) padL) start new_labels =
        lset ++ new_labels := by
      rw [← hllen, hlen]
      exact writeSlice_resize_append lset new_labels padL
    simp only [hpick, hsz, hd, hl, hwd, hwl]
  · rw [List.get?_eq_getElem?]
    rw [List.getElem?_set_self (by simpa using hbin)]
  · intro j hj
    rw [List.get?_eq_getElem?, List.get?_eq_getElem?]
    rw [List.getElem?_set_ne (fun h => hj h.symm)]
  · exact assocFind_assocSet_self st.data bin (dset ++ new_data) (by simp [hd])
  · exact assocFind_assocSet_self st.labels bin (lset ++ new_labels) (by simp [hl])

/-- A concrete `pick_splits` evaluation: one split of probability 1/2 and a
draw of 1/4 select bin 0. -/
theorem pickHalfQuarter : pick_splits [(1 : ℚ)/2] (1/4) = some 0 := by
  norm_num [pick_splits, cum_cutoffs, cumsum, cumsumFrom, firstBin]

/-- Witness for C4: writing a 2-row batch into bin 0 of a store whose bins
are empty, with size vector `[0, 0]`. -/
theorem C4_write_batch_spec_witness :
    write_batch_to_h5 [(1 : ℚ)/2] (1/4)
        (⟨[(0, []), (1, [])], [(0, []), (1, [])]⟩ : H5Store ℕ ℕ)
        [0, 0] [7, 8] [1, 2] 0 0 =
      .ok (⟨[(0, [7, 8]), (1, [])], [(0, [1, 2]), (1, [])]⟩, [2, 0]) ∧
    ([2, 0] : List ℕ).get? 0 = some 2 ∧
    (∀ j, j ≠ 0 → ([2, 0] : List ℕ).get? j = ([0, 0] : List ℕ).get? j) ∧
    assocFind [((0 : ℕ), [7, 8]), (1, [])] 0 = some [7, 8] ∧
    assocFind [((0 : ℕ), [1, 2]), (1, [])] 0 = some [1, 2] ∧
    ([7, 8] : List ℕ).length = 2 ∧
    ([7, 8] : List ℕ).drop 0 = [7, 8] := by
  exact C4_write_batch_spec [(1 : ℚ)/2] (1/4)
    ⟨[(0, []), (1, [])], [(0, []), (1, [])]⟩ [0, 0] [7, 8] [1, 2] 0 0 0 0 [] []
    rfl pickHalfQuarter rfl rfl rfl rfl rfl

/-! ### The write-phase invariant behind the recovery path -/

/-- Every bin with a positive tracked count has its dataset present with
exactly that leading dimension. -/
def StoreSizesInv {ρ κ : Type} (nb : ℕ) (st : H5Store ρ κ) (sizes : List ℕ) : Prop :=
  ∀ i, i < nb → 0 < sizes.getD i 0 →
    ∃ d, assocFind st.data i = some d ∧ d.length = sizes.getD i 0

/-- Inversion of a successful `write_batch_to_h5` call. -/
theorem write_batch_ok_inv {ρ κ : Type} (splits : List ℚ) (draw : ℚ)
    (st : H5Store ρ κ) (sizes : List ℕ) (nd : List ρ) (nl : List κ)
    (padD : ρ) (padL : κ) (res : H5Store ρ κ × List ℕ)
    (h : write_batch_to_h5 splits draw st sizes nd nl padD padL = .ok res) :
    ∃ bin start dset lset,
      sizes.get? bin = some start ∧
      assocFind st.data bin = some dset ∧
      assocFind st.labels bin = some lset ∧
      res.1.data = assocSet st.data bin
        (writeSlice (resizeDS dset (start + nd.length) padD) start nd) ∧
      res.2 = sizes.set bin (start + nd.length) := by
  unfold write_batch_to_h5 at h
  split at h
  · split at h
    · cases h
    · next bin hbin =>
      split at h
      · cases h
      · next start hstart =>
        split at h
        · next dset lset hd hl =>
          injection h with h
          subst h
          exact ⟨bin, start, dset, lset, hstart, hd, hl, rfl, rfl⟩
        · cases h
  · cases h

theorem getD_set_self (l : List ℕ) (i v : ℕ) (h : i < l.length) :
    (l.set i v).getD i 0 = v := by
  rw [List.getD_eq_getElem?_getD, List.getElem?_set_self (by simpa using h)]
  rfl

theorem getD_set_ne (l : List ℕ) (i j v : ℕ) (h : i ≠ j) :
    (l.set i v).getD j 0 = l.getD j 0 := by
  rw [List.getD_eq_getElem?_getD, List.getElem?_set_ne h, ← List.getD_eq_getElem?_getD]

theorem getD_replicate_zero (n i : ℕ) : (List.replicate n (0 : ℕ)).getD i 0 = 0 := by
  rw [List.getD_eq_getElem?_getD, List.getElem?_replicate]
  split <;> rfl

theorem getD_map_range (f : ℕ → ℕ) (n i : ℕ) (h : i < n) :
    ((List.range n).map f).getD i 0 = f i := by
  rw [List.getD_eq_getElem?_getD, List.getElem?_map, List.getElem?_range h]
  rfl

/-- A successful write preserves the store/size invariant. -/
theorem write_batch_preserves_inv {ρ κ : Type} (nb : ℕ) (splits : List ℚ) (draw : ℚ)
    (st : H5Store ρ κ) (sizes : List ℕ) (nd : List ρ) (nl : List κ)
    (padD : ρ) (padL : κ) (res : H5Store ρ κ × List ℕ)
    (hnd : 0 < nd.length)
    (h : write_batch_to_h5 splits draw st sizes nd nl padD padL = .ok res)
    (hsl : sizes.length = nb) (hinv : StoreSizesInv nb st sizes) :
    StoreSizesInv nb res.1 res.2 ∧ res.2.length = nb := by
  obtain ⟨bin, start, dset, lset, hsz, hd, hl, hdata, hsizes⟩ :=
    write_batch_ok_inv splits draw st sizes nd nl padD padL res h
  have hbin : bin < sizes.length := by
    by_contra hge
    rw [List.get?_eq_none.mpr (by omega)] at hsz
    cases hsz
  constructor
  · intro i hi hpos
    by_cases hib : i = bin
    · subst hib
      refine ⟨writeSlice (resizeDS dset (start + nd.length) padD) start nd, ?_, ?_⟩
      · rw [hdata]
        exact assocFind_assocSet_self st.data i _ (by simp [hd])
      · rw [hsizes, getD_set_self _ _ _ hbin, writeSlice_resize_length]
    · obtain ⟨d, hdf, hdl⟩ := hinv i hi (by
        rw [hsizes, getD_set_ne _ _ _ _ (fun hh => hib hh.symm)] at hpos
        exact hpos)
      refine ⟨d, ?_, ?_⟩
      · rw [hdata, assocFind_assocSet_ne st.data bin i _ hib]
        exact hdf
      · rw [hsizes, getD_set_ne _ _ _ _ (fun hh => hib hh.symm)]
        exact hdl
  · rw [hsizes, List.length_set]
    exact hsl

/-- The write loop establishes the invariant from an all-zero size vector on
its first pass and preserves it afterwards. -/
theorem writeLoop_inv {ρ κ : Type} (nb : ℕ) (splits : List ℚ) (padD : ρ) (padL : κ) :
    ∀ (bl : List (List ρ × List κ)) (draws : List ℚ) (st : H5Store ρ κ)
      (sizes : List ℕ) (init : Bool) (res : H5Store ρ κ × List ℕ),
      (∀ b ∈ bl, 0 < b.1.length) →
      sizes.length = nb →
      StoreSizesInv nb st sizes →
      (init = false → ∀ i, i < nb → sizes.getD i 0 = 0) →
      writeLoop nb splits padD padL draws bl st sizes init = .ok res →
      StoreSizesInv nb res.1 res.2 ∧ res.2.length = nb := by
  intro bl
  induction bl with
  | nil =>
    intro draws st sizes init res hbl hsl hinv hz h
    simp only [writeLoop] at h
    injection h with h
    subst h
    exact ⟨hinv, hsl⟩
  | cons b rest ih =>
    obtain ⟨nd, nl⟩ := b
    intro draws st sizes init res hbl hsl hinv hz h
    cases draws with
    | nil =>
      simp only [writeLoop] at h
      cases h
    | cons draw draws2 =>
      simp only [writeLoop] at h
      split at h
      · cases h
      · next st2 sizes2 heq =>
        have hinv1 : StoreSizesInv nb
            (if init = true then st else createBins nb nd.length nl.length padD padL)
            sizes := by
          cases init with
          | true =>
            rw [if_pos rfl]
            exact hinv
          | false =>
            intro i hi hpos
            rw [hz rfl i hi] at hpos
            cases hpos
        have hpres := write_batch_preserves_inv nb splits draw _ sizes nd nl padD padL
          (st2, sizes2) (hbl (nd, nl) (by simp)) heq hsl hinv1
        exact ih draws2 st2 sizes2 true res
          (fun bb hb => hbl bb (by simp [hb])) hpres.2 hpres.1
          (fun hf => nomatch hf) h

/-- C8 counterexample: a run with `splits = [1/2]` whose single 2-row batch
lands in bin 0 writes the Bin Size Vector `[2, 0]`, but bin 1's dataset was
created with the first batch's leading dimension 2 and never resized, so the
recovery path (`overwrite_previous = False`, batch stream none) reads back
`[2, 2]`, not the vector originally written. -/
theorem C8_counterexample :
    split_data (ρ := ℕ) (κ := ℕ) (some [([5, 6], [1, 2])]) none [(1 : ℚ)/2] [1/4]
        true 0 0 =
      .ok (⟨[(0, [5, 6]), (1, [0, 0])], [(0, [1, 2]), (1, [0, 0])]⟩, [2, 0]) ∧
    split_data (ρ := ℕ) (κ := ℕ) none
        (some ⟨[(0, [5, 6]), (1, [0, 0])], [(0, [1, 2]), (1, [0, 0])]⟩)
        [(1 : ℚ)/2] [] false 0 0 =
      .ok (⟨[(0, [5, 6]), (1, [0, 0])], [(0, [1, 2]), (1, [0, 0])]⟩, [2, 2]) ∧
    ([2, 2] : List ℕ) ≠ [2, 0] := by
  refine ⟨?_, rfl, by decide⟩
  simp only [split_data, writeLoop, write_batch_to_h5, pickHalfQuarter, List.length_cons,
    List.length_nil]
  rfl

/-- C8 (amended): calling `split_data` with `overwrite_previous = False` on
an existing readable store (batch stream none) leaves the stored data
unmodified and returns the Bin Size Vector read off each existing bin
dataset's leading dimension, a bin dataset missing from the store counting
as size 0; for every bin that received at least one batch during the
original write this reproduces the originally written count (a bin that
received none reports the creation size instead of 0). -/
theorem C8_recovery_amended {ρ κ : Type} (splits : List ℚ) (draws : List ℚ)
    (bl : List (List ρ × List κ)) (st : H5Store ρ κ) (wsizes : List ℕ)
    (padD : ρ) (padL : κ)
    (hne : ∀ b ∈ bl, 0 < b.1.length)
    (hw : split_data (some bl) none splits draws true padD padL = .ok (st, wsizes)) :
    ∃ rsizes, split_data none (some st) splits [] false padD padL = .ok (st, rsizes) ∧
      rsizes.length = splits.length + 1 ∧
      (∀ i, i < splits.length + 1 → assocFind st.data i = none → rsizes.getD i 0 = 0) ∧
      (∀ i, i < splits.length + 1 → 0 < wsizes.getD i 0 →
        rsizes.getD i 0 = wsizes.getD i 0) := by
  have hw2 : writeLoop (splits.length + 1) splits padD padL draws bl ⟨[], []⟩
      (List.replicate (splits.length + 1) 0) false = .ok (st, wsizes) := by
    simpa [split_data] using hw
  have hinv := writeLoop_inv (splits.length + 1) splits padD padL bl draws ⟨[], []⟩
    (List.replicate (splits.length + 1) 0) false (st, wsizes) hne
    (by simp)
    (by
      intro i hi hpos
      rw [getD_replicate_zero] at hpos
      cases hpos)
    (fun _ i hi => getD_replicate_zero _ i)
    hw2
  refine ⟨(List.range (splits.length + 1)).map fun i =>
      match assocFind st.data i with
      | some d => d.length
      | none => 0, ?_, by simp, ?_, ?_⟩
  · simp [split_data]
  · intro i hi hnone
    rw [getD_map_range _ _ _ hi, hnone]
  · intro i hi hpos
    obtain ⟨d, hdf, hdl⟩ := hinv.1 i hi hpos
    rw [getD_map_range _ _ _ hi, hdf]
    exact hdl

/-- Witness for C8 (amended) on the counterexample run: the bin that
received the batch reads back its written count 2. -/
theorem C8_recovery_amended_witness :
    ∃ rsizes, split_data (ρ := ℕ) (κ := ℕ) none
        (some ⟨[(0, [5, 6]), (1, [0, 0])], [(0, [1, 2]), (1, [0, 0])]⟩)
        [(1 : ℚ)/2] [] false 0 0 =
      .ok (⟨[(0, [5, 6]), (1, [0, 0])], [(0, [1, 2]), (1, [0, 0])]⟩, rsizes) ∧
      rsizes.length = [(1 : ℚ)/2].length + 1 ∧
      (∀ i, i < [(1 : ℚ)/2].length + 1 →
        assocFind [((0 : ℕ), [5, 6]), (1, [0, 0])] i = none → rsizes.getD i 0 = 0) ∧
      (∀ i, i < [(1 : ℚ)/2].length + 1 → 0 < ([2, 0] : List ℕ).getD i 0 →
        rsizes.getD i 0 = ([2, 0] : List ℕ).getD i 0) := by
  exact C8_recovery_amended [(1 : ℚ)/2] [1/4] [([5, 6], [1, 2])]
    ⟨[(0, [5, 6]), (1, [0, 0])], [(0, [1, 2]), (1, [0, 0])]⟩ [2, 0] 0 0
    (by intro b hb; simp at hb; subst hb; decide)
    (by
      simp only [split_data, writeLoop, write_batch_to_h5, pickHalfQuarter,
        List.length_cons, List.length_nil]
      rfl)

end BatchData
